import Mathlib

/-!
Verification of the speaker-split audio-reconstruction and
job-status logic.

The repository has two backends:
* `src/backend/main.py` — `split_audio_by_speaker` places the diarized segments of each speaker onto a silent track of the source duration using
  the pydub functions `AudioSegment.silent` / slicing / `overlay`.
* `src/backend-cloud/main.py` — `split_audio_by_speakers` extracts each
  utterance with ffmpeg (`extract_audio_segment`) and concatenates the
  extracted pieces (`concat_audio_files`).

Audio is modelled as a list of integer samples, one sample per
millisecond, which is the granularity at which both backends address
audio (pydub slices by milliseconds; the cloud backend receives
millisecond timestamps from AssemblyAI and converts them to seconds for
ffmpeg).  Sample values are unbounded integers: pydub mixes overlapping
audio by (saturating) addition of samples, and saturation at the sample
width is abstracted away since every property below concerns silence,
placement, duration and additive layering.
-/

namespace SpeakerSplit

/-- A mono audio clip: one integer sample per millisecond. -/
abbrev Audio := List Int

/-- The sample of `a` at instant `i`; 0 (silence) outside the clip. -/
def sampleAt (a : Audio) (i : Nat) : Int := a.getD i 0

/-- Model of `AudioSegment.silent(duration)`: a clip of `duration` zero samples. -/
def silent (duration : Nat) : Audio := List.replicate duration 0

/-- pydub slicing `audio[s:e]` (millisecond indices). -/
def sliceAudio (a : Audio) (s e : Nat) : Audio := (a.drop s).take (e - s)

/-- pydub `base.overlay(seg, position=pos)`: the result has the length of
`base`; within the span of `seg` the samples are mixed additively, and the
part of `seg` extending past the end of `base` is truncated. -/
def overlay (base seg : Audio) (pos : Nat) : Audio :=
  (List.range base.length).map fun i =>
    base.getD i 0 + (if pos ≤ i then seg.getD (i - pos) 0 else 0)

/-- One diarized segment as consumed by `split_audio_by_speaker`:
`segment.get("speaker", "UNKNOWN")` is modelled by an optional speaker,
and the interval bounds are the millisecond integers
`int(segment.get("start", 0) * 1000)` / `int(segment.get("end", 0) * 1000)`
(they can be negative, hence `Int`). -/
structure Segment where
  speaker : Option String
  startMs : Int
  endMs : Int
deriving DecidableEq, Repr

/-- Model of `segment.get("speaker", "UNKNOWN")`. -/
def speakerLabel (s : Segment) : String := s.speaker.getD "UNKNOWN"

/-- Python `max(0, min(t, duration_ms))` as applied in
`split_audio_by_speaker`, producing a valid index into the clip. -/
def clampMs (t : Int) (d : Nat) : Nat := (max 0 (min t (d : Int))).toNat

/-- The body of the per-segment loop of `split_audio_by_speaker`: clamp
the endpoints to `[0, duration_ms]` and, if the clamped interval is
nonempty, overlay the corresponding slice of the source at its original
offset. -/
def placeOne (audio : Audio) (acc : Audio) (p : Int × Int) : Audio :=
  let s := clampMs p.1 audio.length
  let e := clampMs p.2 audio.length
  if s < e then overlay acc (sliceAudio audio s e) s else acc

/-- The whole per-speaker loop of `split_audio_by_speaker`: start from a
silent clip of the source duration and overlay every segment in turn. -/
def placeSegments (audio : Audio) (ps : List (Int × Int)) : Audio :=
  ps.foldl (placeOne audio) (silent audio.length)

/-- First-occurrence deduplication, i.e. the key order of a Python dict
built by inserting keys in iteration order. -/
def dedupFirst : List String → List String
  | [] => []
  | x :: xs => x :: (dedupFirst xs).filter (fun y => y != x)

/-- The keys of `speaker_segments` built by `split_audio_by_speaker`:
the distinct speaker labels in first-occurrence order. -/
def speakersOf (segs : List Segment) : List String :=
  dedupFirst (segs.map speakerLabel)

/-- The `(start_ms, end_ms)` list accumulated for one speaker by the
grouping loop of `split_audio_by_speaker` (Python appends each segment of
that speaker in iteration order, without merging or deduplication). -/
def segmentsFor (segs : List Segment) (sp : String) : List (Int × Int) :=
  (segs.filter fun s => speakerLabel s == sp).map fun s => (s.startMs, s.endMs)

/-- Model of `split_audio_by_speaker` from `src/backend/main.py`: for every speaker
appearing in the segments (in dict insertion order) it exports one track,
obtained by overlaying the segments of that speaker onto silence of the source
duration.  The returned association list models the `output_files` dict,
with the exported audio content in place of the file path. -/
def split_audio_by_speaker (audio : Audio) (segs : List Segment) :
    List (String × Audio) :=
  (speakersOf segs).map fun sp => (sp, placeSegments audio (segmentsFor segs sp))

/-- Look up the exported track of one speaker in the result. -/
def trackFor (out : List (String × Audio)) (sp : String) : Audio :=
  ((out.find? fun q => q.1 == sp).map Prod.snd).getD []

/-- The contribution of one `(start_ms, end_ms)` pair to the sample of
the reconstructed track at instant `i`: the source sample at `i` when `i`
lies in the clamped interval, silence otherwise. -/
def segContrib (audio : Audio) (p : Int × Int) (i : Nat) : Int :=
  if clampMs p.1 audio.length ≤ i ∧ i < clampMs p.2 audio.length
  then sampleAt audio i else 0

/-! ### Cloud backend (`src/backend-cloud/main.py`) -/

/-- One AssemblyAI utterance as consumed by `split_audio_by_speakers`:
`utterance.get("speaker", "A")` is modelled by an optional speaker, and
`utterance["start"]` / `utterance["end"]` are millisecond timestamps.
(The Python code divides them by 1000 for ffmpeg, which consumes seconds;
on the millisecond-sampled model the two time scales coincide.) -/
structure Utterance where
  speaker : Option String
  startMs : Int
  endMs : Int
deriving DecidableEq, Repr

/-- Model of `utterance.get("speaker", "A")`. -/
def cloudLabel (u : Utterance) : String := u.speaker.getD "A"

/-- Model of `extract_audio_segment` from `src/backend-cloud/main.py`: it computes
`duration = end_time - start_time` and runs
`ffmpeg -i input -ss start_time -t duration` with no clamping of the
endpoints.  The behaviour of ffmpeg for these output options is modelled as:
a non-positive duration fails (`none`, the caller then skips the
segment); otherwise frames before `start_time` are discarded (so a
negative seek position discards nothing) and at most `duration` of audio
is written, truncated at the end of the input. -/
def extract_audio_segment (src : Audio) (startMs endMs : Int) : Option Audio :=
  let dur := endMs - startMs
  if dur ≤ 0 then none
  else some ((src.drop (max 0 startMs).toNat).take dur.toNat)

/-- Insert a string into a sorted list (ordering by `String.lt`). -/
def insertSorted (x : String) : List String → List String
  | [] => [x]
  | y :: ys => if y < x then y :: insertSorted x ys else x :: y :: ys

/-- Sort a list of strings; models the Python builtin `sorted` on the speaker ids. -/
def sortStrings (l : List String) : List String := l.foldr insertSorted []

/-- Model of `sorted(speaker_segments.keys())` in `split_audio_by_speakers`. -/
def cloudSpeakers (utts : List Utterance) : List String :=
  sortStrings (dedupFirst (utts.map cloudLabel))

/-- The `(start, end)` pairs grouped for one speaker by
`split_audio_by_speakers` (appended in iteration order). -/
def cloudSegmentsFor (utts : List Utterance) (sp : String) : List (Int × Int) :=
  (utts.filter fun u => cloudLabel u == sp).map fun u => (u.startMs, u.endMs)

/-- Model of `split_audio_by_speakers` from `src/backend-cloud/main.py`: for each
speaker (in sorted id order) every utterance is extracted with
`extract_audio_segment`; failed extractions are skipped; if at least one
extraction succeeded the pieces are concatenated by `concat_audio_files`
into the output file of that speaker (labelled `Speaker {id}`), otherwise the
speaker gets no output at all. -/
def split_audio_by_speakers (src : Audio) (utts : List Utterance) :
    List (String × Audio) :=
  (cloudSpeakers utts).filterMap fun sp =>
    let pieces := (cloudSegmentsFor utts sp).filterMap fun p =>
      extract_audio_segment src p.1 p.2
    if pieces.isEmpty then none
    else some ("Speaker " ++ sp, pieces.flatten)

/-! ### Job status bookkeeping (both backends, identical code) -/

/-- A JSON value as stored in a job-status dict by the code paths under
verification: the scalar values are strings and numbers, and the only
container values ever stored by initialization are empty arrays / objects
(`"speakers": []`, `"outputs": {}`), modelled by dedicated constructors. -/
inductive JVal where
  | jstr (s : String)
  | jnum (n : Int)
  | jarrEmpty
  | jobjEmpty
deriving DecidableEq, Repr

/-- A Python dict with string keys, as an association list in key
insertion order. -/
abbrev Dict (α : Type) := List (String × α)

/-- Python `d[k]` lookup (`None` when the key is absent). -/
def dictGet {α : Type} : Dict α → String → Option α
  | [], _ => none
  | kv :: rest, k => if kv.1 = k then some kv.2 else dictGet rest k

/-- Python `d[k] = v`: replace the value in place when the key exists,
append the new key at the end otherwise. -/
def dictSet {α : Type} : Dict α → String → α → Dict α
  | [], k, v => [(k, v)]
  | kv :: rest, k, v =>
    if kv.1 = k then (k, v) :: rest else kv :: dictSet rest k v

/-- Python `d.update(updates)`: set every key of `updates` in order. -/
def dictUpdate {α : Type} (d updates : Dict α) : Dict α :=
  updates.foldl (fun acc kv => dictSet acc kv.1 kv.2) d

/-- The process state touched by `update_job_status`: the process-wide
`jobs` mapping and, per job id, per job id, the JSON content of the status.json file of that job. -/
structure ServerState (α : Type) where
  jobs : Dict (Dict α)
  files : Dict (Dict α)

/-- Model of `update_job_status(job_id, updates)` (identical in both backends):
create the in-memory entry if missing, merge `updates` into it with
`dict.update`, and write the resulting entry as the status.json content of that job. -/
def update_job_status {α : Type} (st : ServerState α) (jobId : String)
    (updates : Dict α) : ServerState α :=
  let entry := (dictGet st.jobs jobId).getD []
  let entry2 := dictUpdate entry updates
  { jobs := dictSet st.jobs jobId entry2
    files := dictSet st.files jobId entry2 }

/-- The in-memory entry `jobs[job_id]` (empty dict when absent). -/
def jobEntry {α : Type} (st : ServerState α) (jobId : String) : Dict α :=
  (dictGet st.jobs jobId).getD []

/-- The `except` branch of `process_audio` in `src/backend/main.py`
(lines 378–385): the caught exception is surfaced by a single
`update_job_status(job_id, {"status": "error", "error": str(e)})`,
with no retry. -/
def process_audio_on_error (st : ServerState JVal) (jobId msg : String) :
    ServerState JVal :=
  update_job_status st jobId [("status", .jstr "error"), ("error", .jstr msg)]

/-- The `except` branch of `stream_process` in
`src/backend-cloud/main.py` (lines 404–406): it yields
`{"error": str(e)}`, which the wrapper in the /process endpoint feeds to
`update_job_status`. -/
def stream_process_on_error (st : ServerState JVal) (jobId msg : String) :
    ServerState JVal :=
  update_job_status st jobId [("error", .jstr msg)]

/-- The initialization dict of the cloud `/process` endpoint
(`src/backend-cloud/main.py` lines 529–536). -/
def cloud_process_init : Dict JVal :=
  [("status", .jstr "queued"), ("progress", .jnum 0),
   ("stage", .jstr "Queued for processing"), ("speakers", .jarrEmpty),
   ("transcript", .jarrEmpty), ("outputs", .jobjEmpty)]

/-- Palette of `get_speaker_color` in `src/backend/main.py`. -/
def speaker_colors : List String :=
  ["#4493f2", "#4dc0b5", "#9f7aea", "#ed8936", "#48bb78", "#f56565"]

/-- Model of `get_speaker_color(index)`, i.e. `colors[index % 6]`, for a non-negative index (every caller
passes an `enumerate` index, and the Python `%` is non-negative here). -/
def get_speaker_color (index : Nat) : String :=
  speaker_colors.getD (index % speaker_colors.length) ""

/-! ### Basic sample lemmas -/

theorem sampleAt_silent (d i : Nat) : sampleAt (silent d) i = 0 := by
  simp [sampleAt, silent, List.getD_eq_getElem?_getD, List.getElem?_replicate]
  split <;> rfl

theorem length_silent (d : Nat) : (silent d).length = d := by
  simp [silent]

theorem sampleAt_of_length_le {a : Audio} {i : Nat} (h : a.length ≤ i) :
    sampleAt a i = 0 := by
  simp [sampleAt, List.getD_eq_getElem?_getD, List.getElem?_eq_none h]

theorem length_overlay (base seg : Audio) (pos : Nat) :
    (overlay base seg pos).length = base.length := by
  simp [overlay]

theorem sampleAt_overlay (base seg : Audio) (pos : Nat) {i : Nat}
    (hi : i < base.length) :
    sampleAt (overlay base seg pos) i
      = sampleAt base i + (if pos ≤ i then seg.getD (i - pos) 0 else 0) := by
  simp only [sampleAt, overlay, List.getD_eq_getElem?_getD, List.getElem?_map,
    List.getElem?_range hi, Option.map_some', Option.getD_some]

theorem getD_sliceAudio (a : Audio) (s e j : Nat) :
    (sliceAudio a s e).getD j 0
      = if j < e - s then a.getD (s + j) 0 else 0 := by
  simp only [sliceAudio, List.getD_eq_getElem?_getD, List.getElem?_take,
    List.getElem?_drop]
  split <;> simp

/-! ### Sample characterization of segment placement -/

theorem length_placeOne (audio acc : Audio) (p : Int × Int) :
    (placeOne audio acc p).length = acc.length := by
  simp only [placeOne]
  split
  · exact length_overlay ..
  · rfl

theorem sampleAt_placeOne (audio acc : Audio) (p : Int × Int) {i : Nat}
    (hacc : acc.length = audio.length) (hi : i < audio.length) :
    sampleAt (placeOne audio acc p) i = sampleAt acc i + segContrib audio p i := by
  simp only [placeOne, segContrib]
  set s := clampMs p.1 audio.length with hs
  set e := clampMs p.2 audio.length with he
  by_cases hse : s < e
  · rw [if_pos hse, sampleAt_overlay _ _ _ (by omega)]
    congr 1
    rw [getD_sliceAudio]
    by_cases h1 : s ≤ i
    · rw [if_pos h1]
      by_cases h2 : i < e
      · rw [if_pos (show i - s < e - s by omega), if_pos ⟨h1, h2⟩,
          Nat.add_sub_cancel' h1]
        rfl
      · rw [if_neg (show ¬ i - s < e - s by omega), if_neg (by omega)]
    · rw [if_neg h1, if_neg (by omega)]
  · rw [if_neg hse, if_neg (by omega)]
    omega

theorem length_foldl_placeOne (audio : Audio) (ps : List (Int × Int))
    (acc : Audio) : (ps.foldl (placeOne audio) acc).length = acc.length := by
  induction ps generalizing acc with
  | nil => rfl
  | cons p ps ih => rw [List.foldl_cons, ih, length_placeOne]

theorem sampleAt_foldl_placeOne (audio : Audio) (ps : List (Int × Int))
    (acc : Audio) {i : Nat} (hacc : acc.length = audio.length)
    (hi : i < audio.length) :
    sampleAt (ps.foldl (placeOne audio) acc) i
      = sampleAt acc i + (ps.map fun p => segContrib audio p i).sum := by
  induction ps generalizing acc with
  | nil => simp
  | cons p ps ih =>
    rw [List.foldl_cons, ih _ (by rw [length_placeOne]; exact hacc),
      sampleAt_placeOne audio acc p hacc hi, List.map_cons, List.sum_cons]
    ring

theorem length_placeSegments (audio : Audio) (ps : List (Int × Int)) :
    (placeSegments audio ps).length = audio.length := by
  rw [placeSegments, length_foldl_placeOne, length_silent]

theorem sampleAt_placeSegments (audio : Audio) (ps : List (Int × Int))
    {i : Nat} (hi : i < audio.length) :
    sampleAt (placeSegments audio ps) i
      = (ps.map fun p => segContrib audio p i).sum := by
  rw [placeSegments, sampleAt_foldl_placeOne audio ps _ (length_silent _) hi,
    sampleAt_silent, zero_add]

/-- Two clips are equal when they have the same length and the same
sample at every instant. -/
theorem audio_ext {a b : Audio} (hl : a.length = b.length)
    (h : ∀ i, sampleAt a i = sampleAt b i) : a = b := by
  apply List.ext_getElem?
  intro i
  rcases Nat.lt_or_ge i a.length with hi | hi
  · have hi' : i < b.length := hl ▸ hi
    have := h i
    rw [sampleAt, sampleAt, List.getD_eq_getElem?_getD, List.getD_eq_getElem?_getD,
      List.getElem?_eq_getElem hi, List.getElem?_eq_getElem hi'] at this
    rw [List.getElem?_eq_getElem hi, List.getElem?_eq_getElem hi']
    simpa using this
  · rw [List.getElem?_eq_none hi, List.getElem?_eq_none (hl ▸ hi)]

/-- Total sample characterization of the reconstruction: inside the clip
the sample is the sum of the clamped contributions of the segments, and
beyond the source duration the track (whose length is that duration) is
silent. -/
theorem sampleAt_placeSegments_total (audio : Audio) (ps : List (Int × Int))
    (i : Nat) :
    sampleAt (placeSegments audio ps) i
      = if i < audio.length
        then ((ps.map fun p => segContrib audio p i).sum)
        else 0 := by
  split
  · exact sampleAt_placeSegments audio ps (by assumption)
  · exact sampleAt_of_length_le (by rw [length_placeSegments]; omega)

theorem find?_map_pair {l : List String} {sp : String} (f : String → Audio)
    (h : sp ∈ l) :
    (l.map fun x => (x, f x)).find? (fun q => q.1 == sp) = some (sp, f sp) := by
  induction l with
  | nil => cases h
  | cons x xs ih =>
    by_cases hx : x = sp
    · subst hx
      simp [List.find?_cons]
    · have hb : (x == sp) = false := beq_false_of_ne hx
      have hmem : sp ∈ xs := by
        rcases List.mem_cons.mp h with h1 | h1
        · exact absurd h1.symm hx
        · exact h1
      simp only [List.map_cons, List.find?_cons, hb]
      exact ih hmem

theorem trackFor_split (audio : Audio) (segs : List Segment) {sp : String}
    (hsp : sp ∈ speakersOf segs) :
    trackFor (split_audio_by_speaker audio segs) sp
      = placeSegments audio (segmentsFor segs sp) := by
  rw [trackFor, split_audio_by_speaker, find?_map_pair _ hsp]
  rfl

/-- A segment whose clamped interval is empty (inverted or zero-length)
is skipped by the placement loop: removing it from anywhere in the list
does not change the reconstructed track. -/
theorem placeSegments_dropMiddle (audio : Audio) (l1 l2 : List (Int × Int))
    (p : Int × Int)
    (h : clampMs p.2 audio.length ≤ clampMs p.1 audio.length) :
    placeSegments audio (l1 ++ p :: l2) = placeSegments audio (l1 ++ l2) := by
  apply audio_ext (by rw [length_placeSegments, length_placeSegments])
  intro i
  rw [sampleAt_placeSegments_total, sampleAt_placeSegments_total]
  split
  · rw [List.map_append, List.map_append, List.sum_append, List.sum_append,
      List.map_cons, List.sum_cons]
    have hz : segContrib audio p i = 0 := by
      rw [segContrib, if_neg (by omega)]
    rw [hz, zero_add]
  · rfl

theorem foldl_placeOne_of_skipped (audio : Audio) (ps : List (Int × Int))
    (acc : Audio)
    (h : ∀ p ∈ ps, clampMs p.2 audio.length ≤ clampMs p.1 audio.length) :
    ps.foldl (placeOne audio) acc = acc := by
  induction ps generalizing acc with
  | nil => rfl
  | cons p ps ih =>
    have hp := h p (List.mem_cons_self p ps)
    have hstep : placeOne audio acc p = acc := by
      rw [placeOne]
      exact if_neg (by omega)
    rw [List.foldl_cons, hstep]
    exact ih acc fun q hq => h q (List.mem_cons_of_mem p hq)

theorem placeSegments_of_all_skipped (audio : Audio) (ps : List (Int × Int))
    (h : ∀ p ∈ ps, clampMs p.2 audio.length ≤ clampMs p.1 audio.length) :
    placeSegments audio ps = silent audio.length :=
  foldl_placeOne_of_skipped audio ps _ h

/-! ### Dict lemmas -/

theorem dictGet_dictSet_self {α : Type} (d : Dict α) (k : String) (v : α) :
    dictGet (dictSet d k v) k = some v := by
  induction d with
  | nil => simp [dictSet, dictGet]
  | cons kv rest ih =>
    by_cases hk : kv.1 = k
    · simp [dictSet, hk, dictGet]
    · simp [dictSet, hk, dictGet, ih]

theorem dictGet_dictSet_ne {α : Type} (d : Dict α) {k k2 : String} (v : α)
    (h : k2 ≠ k) : dictGet (dictSet d k v) k2 = dictGet d k2 := by
  have hk2 : ¬ k = k2 := fun hh => h hh.symm
  induction d with
  | nil => simp [dictSet, dictGet, hk2]
  | cons kv rest ih =>
    by_cases hk : kv.1 = k
    · simp [dictSet, hk, dictGet, hk2]
    · simp [dictSet, hk, dictGet, ih]

theorem dictGet_dictUpdate_of_none {α : Type} (d updates : Dict α)
    {k : String} (h : dictGet updates k = none) :
    dictGet (dictUpdate d updates) k = dictGet d k := by
  induction updates generalizing d with
  | nil => rfl
  | cons kv rest ih =>
    rw [dictGet] at h
    by_cases hk : kv.1 = k
    · rw [if_pos hk] at h
      cases h
    · rw [if_neg hk] at h
      rw [dictUpdate, List.foldl_cons]
      have := ih (dictSet d kv.1 kv.2) h
      rw [dictUpdate] at this
      rw [this, dictGet_dictSet_ne _ _ fun h2 => hk h2.symm]

theorem jobEntry_update {α : Type} (st : ServerState α) (jobId : String)
    (updates : Dict α) :
    jobEntry (update_job_status st jobId updates) jobId
      = dictUpdate (jobEntry st jobId) updates := by
  rw [jobEntry, update_job_status]
  simp only [dictGet_dictSet_self, Option.getD_some]
  rfl

/-! ### Claim C1 -/

set_option maxRecDepth 100000 in
/-- C1, counterexample: on the very instance named by the claim (a single
utterance from 1.0 s to 2.0 s of a 5 s source, here a source of 5000
one-millisecond samples of value 7), the cloud `split_audio_by_speakers`
does not produce a track that is silent everywhere except `[1.0 s, 2.0 s)`:
the output track is the extracted segment alone, of length 1000 ms, and
its sample at instant 0 is the source audio (7), not silence. -/
theorem cloud_split_not_positional :
    ((split_audio_by_speakers (List.replicate 5000 7)
        [⟨some "A", 1000, 2000⟩]).map fun p => (p.2.length, sampleAt p.2 0))
      = [(1000, 7)]
    ∧ [((1000 : Nat), (7 : Int))] ≠ [((5000 : Nat), (0 : Int))] := by
  constructor
  · decide
  · decide

/-- C1 (amended to the backend, which the counterexample shows is the only
implementation with this behaviour): for every speaker appearing in the
segments, every sample of the track produced by `split_audio_by_speaker`
is the sum of the contributions of the segments of that speaker — the
original source audio at the original offsets inside each clamped
interval — and silence everywhere else (in particular beyond the source
duration the track does not even extend). -/
theorem split_audio_by_speaker_positional (audio : Audio) (segs : List Segment)
    (sp : String) (hsp : sp ∈ speakersOf segs) (i : Nat) :
    sampleAt (trackFor (split_audio_by_speaker audio segs) sp) i
      = if i < audio.length
        then ((segmentsFor segs sp).map fun p => segContrib audio p i).sum
        else 0 := by
  rw [trackFor_split _ _ hsp, sampleAt_placeSegments_total]

/-- C1, witness: the positional characterization applied to a concrete
clip and a concrete single-utterance diarization. -/
theorem split_audio_by_speaker_positional_witness :
    sampleAt (trackFor (split_audio_by_speaker [5, 6, 7, 8, 9]
        [⟨some "A", 1, 2⟩]) "A") 3
      = if 3 < ([5, 6, 7, 8, 9] : Audio).length
        then ((segmentsFor [⟨some "A", 1, 2⟩] "A").map
            fun p => segContrib [5, 6, 7, 8, 9] p 3).sum
        else 0 :=
  split_audio_by_speaker_positional [5, 6, 7, 8, 9] [⟨some "A", 1, 2⟩] "A"
    (by decide) 3

/-! ### Claim C2 -/

set_option maxRecDepth 100000 in
/-- C2, counterexample: for a source of 4000 one-millisecond samples and a
single utterance `[500 ms, 1500 ms)`, the cloud `split_audio_by_speakers`
produces the track of speaker B with duration 1000 ms, not the source
duration 4000 ms. -/
theorem cloud_split_track_length_not_duration :
    ((split_audio_by_speakers (List.replicate 4000 5)
        [⟨some "B", 500, 1500⟩]).map fun p => (p.1, p.2.length))
      = [("Speaker B", 1000)]
    ∧ (1000 : Nat) ≠ 4000 := by
  constructor
  · decide
  · decide

/-- C2 (amended to the backend): every track returned by
`split_audio_by_speaker` has exactly the length (duration) of the source
clip. -/
theorem split_audio_by_speaker_track_length (audio : Audio)
    (segs : List Segment) :
    ∀ p ∈ split_audio_by_speaker audio segs, p.2.length = audio.length := by
  intro p hp
  rw [split_audio_by_speaker] at hp
  obtain ⟨sp, _, rfl⟩ := List.mem_map.mp hp
  exact length_placeSegments ..

/-- C2, witness: the duration property applied to a concrete clip. -/
theorem split_audio_by_speaker_track_length_witness :
    (("A", ([0, 2, 0] : Audio)) : String × Audio).2.length
      = ([1, 2, 3] : Audio).length :=
  split_audio_by_speaker_track_length [1, 2, 3] [⟨some "A", 1, 2⟩]
    ("A", [0, 2, 0]) (by decide)

/-! ### Claim C3 -/

/-- C3, counterexample: two overlapping utterances `[0 ms, 2 ms)` and
`[1 ms, 3 ms)` of the same speaker on the source `[1, 2, 3, 4, 5]`.  If
the two intervals were layered additively onto a track of the source
duration, the track would be `[1, 4, 3, 0, 0]` (sample 4 = 2 + 2 in the
overlap); the cloud `split_audio_by_speakers` instead concatenates the two
extracted segments, duplicating the overlap sequentially: `[1, 2, 2, 3]`. -/
theorem cloud_split_overlap_not_additive :
    ((split_audio_by_speakers [1, 2, 3, 4, 5]
        [⟨some "A", 0, 2⟩, ⟨some "A", 1, 3⟩]).map fun p => p.2)
      = [[1, 2, 2, 3]]
    ∧ ([[1, 2, 2, 3]] : List Audio) ≠ [[1, 4, 3, 0, 0]] := by
  constructor
  · decide
  · decide

/-- C3 (amended to the backend): the grouping loop of
`split_audio_by_speaker` keeps both of two overlapping intervals of the
same speaker (no merging or deduplication), and at every instant lying in
both intervals the track sample is the sum of the two source
contributions, i.e. twice the source sample. -/
theorem split_audio_by_speaker_overlap_additive (audio : Audio) (sp : String)
    (s1 e1 s2 e2 : Int) (h1 : 0 ≤ s1) (h2 : e1 ≤ (audio.length : Int))
    (h3 : 0 ≤ s2) (h4 : e2 ≤ (audio.length : Int)) (i : Nat)
    (hi1 : s1.toNat ≤ i) (hi2 : i < e1.toNat) (hi3 : s2.toNat ≤ i)
    (hi4 : i < e2.toNat) :
    segmentsFor [⟨some sp, s1, e1⟩, ⟨some sp, s2, e2⟩] sp = [(s1, e1), (s2, e2)]
    ∧ sampleAt (trackFor (split_audio_by_speaker audio
          [⟨some sp, s1, e1⟩, ⟨some sp, s2, e2⟩]) sp) i
        = 2 * sampleAt audio i := by
  have hseg : segmentsFor [⟨some sp, s1, e1⟩, ⟨some sp, s2, e2⟩] sp
      = [(s1, e1), (s2, e2)] := by
    simp [segmentsFor, speakerLabel]
  refine ⟨hseg, ?_⟩
  have hsp : sp ∈ speakersOf [⟨some sp, s1, e1⟩, ⟨some sp, s2, e2⟩] := by
    simp [speakersOf, speakerLabel, dedupFirst]
  have hiD : i < audio.length := by omega
  rw [trackFor_split _ _ hsp, hseg, sampleAt_placeSegments_total, if_pos hiD]
  have c1 : segContrib audio (s1, e1) i = sampleAt audio i := by
    rw [segContrib, if_pos (by simp only [clampMs]; omega)]
  have c2 : segContrib audio (s2, e2) i = sampleAt audio i := by
    rw [segContrib, if_pos (by simp only [clampMs]; omega)]
  rw [List.map_cons, List.map_cons, List.map_nil, List.sum_cons,
    List.sum_cons, List.sum_nil, c1, c2]
  ring

/-- C3, witness: the layering property applied to a concrete clip with
the two overlapping intervals `[0 ms, 2 ms)` and `[1 ms, 3 ms)` at the
overlap instant 1. -/
theorem split_audio_by_speaker_overlap_additive_witness :
    segmentsFor [⟨some "A", 0, 2⟩, ⟨some "A", 1, 3⟩] "A" = [(0, 2), (1, 3)]
    ∧ sampleAt (trackFor (split_audio_by_speaker [1, 2, 3, 4, 5]
          [⟨some "A", 0, 2⟩, ⟨some "A", 1, 3⟩]) "A") 1
        = 2 * sampleAt [1, 2, 3, 4, 5] 1 :=
  split_audio_by_speaker_overlap_additive [1, 2, 3, 4, 5] "A" 0 2 1 3
    (by decide) (by decide) (by decide) (by decide) 1
    (by decide) (by decide) (by decide) (by decide)

/-! ### Claim C4 -/

/-- C4, counterexample: the cloud `extract_audio_segment` does not clamp
the interval endpoints to `[0, D]`.  For the utterance `[-2 ms, 2 ms)` on
the source `[10, 20, 30, 40, 50]`, clamping would give the interval
`[0 ms, 2 ms)` and hence the extraction `[10, 20]`; the code instead
passes the unclamped start to ffmpeg together with
`duration = end - start = 4 ms`, producing `[10, 20, 30, 40]`. -/
theorem cloud_extract_no_clamping :
    ((split_audio_by_speakers [10, 20, 30, 40, 50]
        [⟨some "A", -2, 2⟩]).map fun p => p.2)
      = [[10, 20, 30, 40]]
    ∧ ([[10, 20, 30, 40]] : List Audio) ≠ [[10, 20]] := by
  constructor
  · decide
  · decide

/-- C4 (amended to the backend): in `split_audio_by_speaker` every
interval acts exactly as its endpoints clamped to `[0, D]` (replacing a
segment by its clamped version anywhere in the list leaves the
reconstructed track unchanged), and a segment whose clamped interval is
zero-length or inverted is skipped silently: removing it leaves the track
unchanged and nothing is raised. -/
theorem split_clamps_and_skips (audio : Audio) (l1 l2 : List (Int × Int))
    (p : Int × Int) :
    placeSegments audio (l1 ++ p :: l2)
      = placeSegments audio
          (l1 ++ (((clampMs p.1 audio.length : Nat) : Int),
                  ((clampMs p.2 audio.length : Nat) : Int)) :: l2)
    ∧ (clampMs p.2 audio.length ≤ clampMs p.1 audio.length →
        placeSegments audio (l1 ++ p :: l2)
          = placeSegments audio (l1 ++ l2)) := by
  constructor
  · apply audio_ext (by rw [length_placeSegments, length_placeSegments])
    intro i
    rw [sampleAt_placeSegments_total, sampleAt_placeSegments_total]
    split
    · rw [List.map_append, List.map_append, List.sum_append, List.sum_append,
        List.map_cons, List.map_cons, List.sum_cons, List.sum_cons]
      have hc : segContrib audio
          (((clampMs p.1 audio.length : Nat) : Int),
           ((clampMs p.2 audio.length : Nat) : Int)) i
          = segContrib audio p i := by
        simp only [segContrib]
        have e1 : clampMs ((clampMs p.1 audio.length : Nat) : Int) audio.length
            = clampMs p.1 audio.length := by
          simp only [clampMs]; omega
        have e2 : clampMs ((clampMs p.2 audio.length : Nat) : Int) audio.length
            = clampMs p.2 audio.length := by
          simp only [clampMs]; omega
        rw [e1, e2]
      rw [hc]
    · rfl
  · exact placeSegments_dropMiddle audio l1 l2 p

/-- C4, witness: clamping and skipping applied to a concrete clip and the
inverted-after-clamping interval `[3 ms, 7 ms)` on a 2 ms source. -/
theorem split_clamps_and_skips_witness :
    (placeSegments [1, 2] [((3 : Int), (7 : Int))]
        = placeSegments [1, 2] [(((clampMs 3 2 : Nat) : Int),
                                 ((clampMs 7 2 : Nat) : Int))])
    ∧ placeSegments [1, 2] [((3 : Int), (7 : Int))] = placeSegments [1, 2] [] :=
  ⟨(split_clamps_and_skips [1, 2] [] [] (3, 7)).1,
   (split_clamps_and_skips [1, 2] [] [] (3, 7)).2 (by decide)⟩

/-! ### Claim C5 -/

/-- C5 (confirmed): an interval lying entirely outside `[0, D]` (it ends
at or before 0, or starts at or after the source duration) contributes no
audio: removing it from anywhere in the segment list leaves the
reconstructed track of `split_audio_by_speaker` unchanged. -/
theorem split_outside_contributes_nothing (audio : Audio)
    (l1 l2 : List (Int × Int)) (p : Int × Int)
    (hout : p.2 ≤ 0 ∨ (audio.length : Int) ≤ p.1) :
    placeSegments audio (l1 ++ p :: l2) = placeSegments audio (l1 ++ l2) := by
  apply placeSegments_dropMiddle
  simp only [clampMs]
  omega

/-- C5, witness: the interval `[5 ms, 6 ms)` lies beyond a 2 ms source
and contributes nothing. -/
theorem split_outside_contributes_nothing_witness :
    placeSegments [1, 2] [((5 : Int), (6 : Int))] = placeSegments [1, 2] [] :=
  split_outside_contributes_nothing [1, 2] [] [] (5, 6) (by decide)

/-! ### Claim C6 -/

/-- C6, counterexample: in the cloud backend the error path of
`stream_process` yields only `{"error": str(e)}`; after the `/process`
endpoint has initialized the job with status `"queued"`, a failure leaves
the status field `"queued"` — the status is not set to `"error"` as the
claim states. -/
theorem cloud_error_keeps_status :
    dictGet (jobEntry (stream_process_on_error
        (update_job_status ⟨[], []⟩ "job1" cloud_process_init)
        "job1" "boom") "job1") "status"
      = some (JVal.jstr "queued")
    ∧ some (JVal.jstr "queued") ≠ some (JVal.jstr "error") := by
  constructor
  · decide
  · decide

/-- C6 (amended): the backend `process_audio` catches the exception and
marks the job with status `"error"` and the exception message under
`"error"`, leaving every other field unchanged (a single status update,
nothing else is produced); the cloud `stream_process` records the message
under `"error"` but leaves the status field unchanged. -/
theorem error_paths_mark_job (st : ServerState JVal) (jobId msg k : String)
    (hk1 : k ≠ "status") (hk2 : k ≠ "error") :
    dictGet (jobEntry (process_audio_on_error st jobId msg) jobId) "status"
        = some (JVal.jstr "error")
    ∧ dictGet (jobEntry (process_audio_on_error st jobId msg) jobId) "error"
        = some (JVal.jstr msg)
    ∧ dictGet (jobEntry (process_audio_on_error st jobId msg) jobId) k
        = dictGet (jobEntry st jobId) k
    ∧ dictGet (jobEntry (stream_process_on_error st jobId msg) jobId) "error"
        = some (JVal.jstr msg)
    ∧ dictGet (jobEntry (stream_process_on_error st jobId msg) jobId) "status"
        = dictGet (jobEntry st jobId) "status" := by
  have hse : ("status" : String) ≠ "error" := by decide
  constructor
  · rw [process_audio_on_error, jobEntry_update]
    simp only [dictUpdate, List.foldl_cons, List.foldl_nil]
    rw [dictGet_dictSet_ne _ _ hse, dictGet_dictSet_self]
  constructor
  · rw [process_audio_on_error, jobEntry_update]
    simp only [dictUpdate, List.foldl_cons, List.foldl_nil]
    rw [dictGet_dictSet_self]
  constructor
  · rw [process_audio_on_error, jobEntry_update]
    simp only [dictUpdate, List.foldl_cons, List.foldl_nil]
    rw [dictGet_dictSet_ne _ _ hk2, dictGet_dictSet_ne _ _ hk1]
  constructor
  · rw [stream_process_on_error, jobEntry_update]
    simp only [dictUpdate, List.foldl_cons, List.foldl_nil]
    rw [dictGet_dictSet_self]
  · rw [stream_process_on_error, jobEntry_update]
    simp only [dictUpdate, List.foldl_cons, List.foldl_nil]
    rw [dictGet_dictSet_ne _ _ hse]

/-- C6, witness: the error-marking property applied to a concrete state
and the field `"progress"`. -/
theorem error_paths_mark_job_witness :
    dictGet (jobEntry (process_audio_on_error ⟨[], []⟩ "j" "m") "j") "status"
        = some (JVal.jstr "error")
    ∧ dictGet (jobEntry (process_audio_on_error ⟨[], []⟩ "j" "m") "j") "error"
        = some (JVal.jstr "m")
    ∧ dictGet (jobEntry (process_audio_on_error ⟨[], []⟩ "j" "m") "j") "progress"
        = dictGet (jobEntry (⟨[], []⟩ : ServerState JVal) "j") "progress"
    ∧ dictGet (jobEntry (stream_process_on_error ⟨[], []⟩ "j" "m") "j") "error"
        = some (JVal.jstr "m")
    ∧ dictGet (jobEntry (stream_process_on_error ⟨[], []⟩ "j" "m") "j") "status"
        = dictGet (jobEntry (⟨[], []⟩ : ServerState JVal) "j") "status" :=
  error_paths_mark_job ⟨[], []⟩ "j" "m" "progress" (by decide) (by decide)

/-! ### Claim C7 -/

/-- C7 (confirmed): after every call to `update_job_status(job_id,
updates)`, the JSON content written to the status.json file of the job is
exactly the in-memory entry `jobs[job_id]`. -/
theorem update_job_status_file_mirrors_jobs {α : Type} (st : ServerState α)
    (jobId : String) (updates : Dict α) :
    dictGet (update_job_status st jobId updates).files jobId
      = dictGet (update_job_status st jobId updates).jobs jobId := by
  rw [update_job_status]
  simp only [dictGet_dictSet_self]

/-! ### Claim C8 -/

/-- C8 (confirmed): `update_job_status(job_id, updates)` leaves every
field of the existing in-memory job entry whose key is not present in
`updates` unchanged. -/
theorem update_job_status_frame {α : Type} (st : ServerState α)
    (jobId : String) (updates d : Dict α)
    (hjob : dictGet st.jobs jobId = some d) (k : String)
    (hk : dictGet updates k = none) :
    dictGet (jobEntry (update_job_status st jobId updates) jobId) k
      = dictGet d k := by
  rw [jobEntry_update, jobEntry, hjob, Option.getD_some,
    dictGet_dictUpdate_of_none _ _ hk]

/-- C8, witness: the frame property applied to a concrete job entry and
an update not containing its key. -/
theorem update_job_status_frame_witness :
    dictGet (jobEntry (update_job_status
        (⟨[("j", [("a", JVal.jnum 1)])], []⟩ : ServerState JVal) "j"
        [("b", JVal.jnum 2)]) "j") "a"
      = dictGet [("a", JVal.jnum 1)] "a" :=
  update_job_status_frame ⟨[("j", [("a", JVal.jnum 1)])], []⟩ "j"
    [("b", JVal.jnum 2)] [("a", JVal.jnum 1)] (by decide) "a" (by decide)

/-! ### Claim C9 -/

/-- C9 (confirmed): the keys of the dict returned by
`split_audio_by_speaker` are exactly the distinct speaker labels of the
segments (in first-occurrence order), and a speaker all of whose
intervals are skipped still gets an exported track — the entirely silent
clip of the source duration. -/
theorem split_exports_every_speaker (audio : Audio) (segs : List Segment)
    (sp : String) (hsp : sp ∈ speakersOf segs)
    (hskip : ∀ p ∈ segmentsFor segs sp,
        clampMs p.2 audio.length ≤ clampMs p.1 audio.length) :
    (split_audio_by_speaker audio segs).map Prod.fst
        = dedupFirst (segs.map speakerLabel)
    ∧ trackFor (split_audio_by_speaker audio segs) sp
        = silent audio.length := by
  constructor
  · rw [split_audio_by_speaker, List.map_map]
    have hid : (Prod.fst ∘ fun sp => (sp, placeSegments audio (segmentsFor segs sp)))
        = id := rfl
    rw [hid, List.map_id, speakersOf]
  · rw [trackFor_split _ _ hsp]
    exact placeSegments_of_all_skipped audio _ hskip

/-- C9, witness: a diarization whose only speaker has a single interval
that is skipped after clamping still yields that speaker as a key with an
entirely silent exported track. -/
theorem split_exports_every_speaker_witness :
    (split_audio_by_speaker [1, 2] [⟨some "A", 3, 7⟩]).map Prod.fst
        = dedupFirst ([⟨some "A", 3, 7⟩].map speakerLabel)
    ∧ trackFor (split_audio_by_speaker [1, 2] [⟨some "A", 3, 7⟩]) "A"
        = silent ([1, 2] : Audio).length :=
  split_exports_every_speaker [1, 2] [⟨some "A", 3, 7⟩] "A"
    (by decide) (by decide)

/-! ### Claim C10 -/

/-- C10 (confirmed): `get_speaker_color` always returns a member of the
fixed six-color palette, and the assignment is periodic with period six. -/
theorem get_speaker_color_palette_periodic (i : Nat) :
    get_speaker_color i ∈ speaker_colors
    ∧ speaker_colors.length = 6
    ∧ get_speaker_color (i + 6) = get_speaker_color i := by
  have h6 : speaker_colors.length = 6 := rfl
  refine ⟨?_, h6, ?_⟩
  · rw [get_speaker_color, h6]
    have h : ∀ r, r < 6 → speaker_colors.getD r "" ∈ speaker_colors := by decide
    exact h _ (Nat.mod_lt i (by omega))
  · rw [get_speaker_color, get_speaker_color, h6, Nat.add_mod_right]

end SpeakerSplit
